import Mathlib

/-!
Verification of the beacon-scoring pipeline of `beacon_finder.py`.

The script reads proxy-log rows, drops rows whose `username` or `dest_ip`
column equals the sentinel `"-"`, groups the remaining rows by the pair
`(username, domain)` (pandas `groupby` with its default key sorting),
keeps conversations with more than 36 observations, computes inter-arrival
deltas, 20/50/80 linear-interpolation percentiles, Bowley skewness, median
absolute deviation, a rate score, a composite score, sorts by score
descending and flags scores above 0.7.

Timestamps and all statistics are modelled as rationals (seconds); the
only place where IEEE-754 behaviour is observable on the reachable inputs
is the division `10 * count / span` at `span = 0`, which is modelled
explicitly with an extended value type (`PyFloat`).
-/

namespace BeaconFinder

set_option maxRecDepth 200000

/-- One parsed row of the proxy log (`pd.read_csv` at line 47 of
`beacon_finder.py`).  The timestamp is in seconds; the columns never read
after the column selection at line 59 (`category`, `METHOD`, `port`,
`uri`, `filetype`, `agent`, `bytes_received`, `bytes_sent`, `source_ip`)
are omitted. -/
structure LogRecord where
  timestamp : ℚ
  username : String
  dest_ip : String
  domain : String
deriving DecidableEq

/-- Line 51: `df = df.loc[(df['username'] != '-') & (df['dest_ip'] != '-')]`.
Note the filter tests `dest_ip`, not the `domain` column that later serves
as the conversation destination key. -/
def sentinelFilter (rows : List LogRecord) : List LogRecord :=
  rows.filter fun r => r.username != "-" && r.dest_ip != "-"

/-- Code-point lexicographic order on character lists, as Python compares
strings. -/
def lexLtChars : List Char → List Char → Bool
  | [], [] => false
  | [], _ :: _ => true
  | _ :: _, [] => false
  | x :: xs, y :: ys =>
    x.toNat < y.toNat || (x.toNat == y.toNat && lexLtChars xs ys)

/-- Strict code-point lexicographic order on strings (Python `<`). -/
def strLtB (a b : String) : Bool := lexLtChars a.data b.data

/-- Ordering of `(username, domain)` group keys: pandas `groupby` with its
default `sort=True` sorts the group keys as Python tuples. -/
def keyLeB (a b : String × String) : Bool :=
  strLtB a.1 b.1 || (a.1 == b.1 && (strLtB a.2 b.2 || a.2 == b.2))

def keyLe (a b : String × String) : Prop := keyLeB a b = true

instance : DecidableRel keyLe := fun a b =>
  inferInstanceAs (Decidable (keyLeB a b = true))

/-- The distinct `(username, domain)` keys of the rows, in the sorted order
pandas `groupby([src, dst])` (line 63) produces.  `dedup` only removes
duplicate keys; since the keys are then sorted and pairwise distinct, the
result does not depend on which occurrence `dedup` keeps. -/
def groupKeys (rows : List LogRecord) : List (String × String) :=
  List.insertionSort keyLe ((rows.map fun r => (r.username, r.domain)).dedup)

/-- A conversation after `groupby([src, dst]).agg(list)` (line 63): one
`(username, domain)` key with the timestamps of all its rows in row order. -/
structure Conv where
  username : String
  domain : String
  timestamps : List ℚ
deriving DecidableEq

/-- Lines 63-67: group the rows into conversations, keys sorted, the
timestamps of each group kept in the order the rows appear. -/
def groupby (rows : List LogRecord) : List Conv :=
  (groupKeys rows).map fun k =>
    ⟨k.1, k.2, (rows.filter fun r => r.username == k.1 && r.domain == k.2).map
      (fun r => r.timestamp)⟩

/-- Line 72: `df[count] = df[time].apply(lambda x: len(x))`. -/
def count (c : Conv) : ℕ := c.timestamps.length

/-- Line 79: `df = df.loc[df[count] > 36]`. -/
def activityFilter (cs : List Conv) : List Conv :=
  cs.filter fun c => 36 < count c

/-- Line 90: `pd.Series(x).diff().dropna().tolist()` — the list of
differences between consecutive timestamps, in series order. -/
def deltas (ts : List ℚ) : List ℚ :=
  List.zipWith (fun a b => a - b) ts.tail ts

/-- Ascending sort of the values, as `np.percentile` performs internally.
`insertionSort` is a stable comparison sort; on rationals any comparison
sort yields the same sorted list. -/
def sortQ (xs : List ℚ) : List ℚ := List.insertionSort (fun a b => a ≤ b) xs

/-- Linear interpolation at a fractional position of a (sorted) list:
`s[⌊pos⌋] + (pos − ⌊pos⌋) · (s[⌊pos⌋ + 1] − s[⌊pos⌋])`.  `Rat.floor` is
the computable floor of Batteries (equal to `⌊·⌋`, see `ratFloor_eq`). -/
def interp (s : List ℚ) (pos : ℚ) : ℚ :=
  s.getD (Rat.floor pos).toNat 0 +
    (pos - ((Rat.floor pos).toNat : ℚ)) *
      (s.getD ((Rat.floor pos).toNat + 1) 0 - s.getD (Rat.floor pos).toNat 0)

/-- `np.percentile(x, p)` with its default linear-interpolation method:
sort, take the virtual index `(p/100) · (n − 1)`, interpolate between the
two bracketing order statistics (lines 94-96). -/
def percentile (xs : List ℚ) (p : ℚ) : ℚ :=
  interp (sortQ xs) (p / 100 * (((sortQ xs).length : ℚ) - 1))

/-- `np.median` is the 50th linear-interpolation percentile. -/
def median (xs : List ℚ) : ℚ := percentile xs 50

/-- Line 94: `df['Low'] = … np.percentile(np.array(x), 20)`. -/
def lowPct (ds : List ℚ) : ℚ := percentile ds 20

/-- Line 95: the 50th percentile of the deltas. -/
def midPct (ds : List ℚ) : ℚ := percentile ds 50

/-- Line 96: the 80th percentile of the deltas. -/
def highPct (ds : List ℚ) : ℚ := percentile ds 80

/-- Line 97: `df['BowleyNum'] = df['Low'] + df['High'] - 2 * df['Mid']`. -/
def bowleyNum (ds : List ℚ) : ℚ := lowPct ds + highPct ds - 2 * midPct ds

/-- Line 98: `df['BowleyDen'] = df['High'] - df['Low']`. -/
def bowleyDen (ds : List ℚ) : ℚ := highPct ds - lowPct ds

/-- Line 99: `BowleyNum / BowleyDen if BowleyNum != 0 and Mid != Low and
Mid != High else 0.0`. -/
def skew (ds : List ℚ) : ℚ :=
  if bowleyNum ds ≠ 0 ∧ midPct ds ≠ lowPct ds ∧ midPct ds ≠ highPct ds then
    bowleyNum ds / bowleyDen ds
  else 0

/-- Line 102: median absolute deviation of the deltas (in seconds). -/
def madm (ds : List ℚ) : ℚ :=
  median (ds.map fun d => |d - median ds|)

/-- Line 104: `df['ConnDiv'] = df[time].apply(lambda x: (x[-1] - x[0]).total_seconds())`.
Total defaulted extraction of the last and first timestamp; the pipeline
only applies it to conversations with at least 37 timestamps. -/
def connDiv (ts : List ℚ) : ℚ := ts.getLastD 0 - ts.headD 0

/-- Line 109: `df['SkewScore'] = 1.0 - abs(df['Skew'])`. -/
def skewScore (ds : List ℚ) : ℚ := 1 - |skew ds|

/-- Lines 110-111: `1.0 - Madm/30.0`, then `0 if x < 0 else x`. -/
def madmScore (m : ℚ) : ℚ :=
  if 1 - m / 30 < 0 then 0 else 1 - m / 30

/-- An IEEE-754 double as numpy produces it here: a finite (exactly
representable, idealised as rational) value, an infinity, or NaN. -/
inductive PyFloat
  | fin (q : ℚ)
  | posInf
  | negInf
  | nan
deriving DecidableEq

/-- IEEE-754 division of finite operands: division by zero yields a signed
infinity (or NaN for `0/0`); `beacon_finder.py` suppresses the numpy
warning (lines 26-27), so line 112 silently produces these values. -/
def pyDiv (a b : ℚ) : PyFloat :=
  if b = 0 then
    if a = 0 then .nan else if 0 < a then .posInf else .negInf
  else .fin (a / b)

/-- Line 113: `lambda x: 1.0 if x > 1.0 else x` under IEEE-754 comparison
semantics (`inf > 1.0` is true, any comparison with NaN is false). -/
def capGtOne : PyFloat → PyFloat
  | .fin q => if 1 < q then .fin 1 else .fin q
  | .posInf => .fin 1
  | .negInf => .negInf
  | .nan => .nan

/-- Lines 112-113: `10 * count / ConnDiv`, then the cap at 1.0. -/
def connCountScoreF (count : ℕ) (span : ℚ) : PyFloat :=
  capGtOne (pyDiv (10 * count) span)

/-- The rate score as a rational.  For every conversation the pipeline
scores (`count > 36`, hence `10 * count > 0`) the capped value is finite,
and `connCountScoreF_eq_fin` shows this function extracts it; the junk
value `0` of the other branches is never reached there. -/
def connCountScore (count : ℕ) (span : ℚ) : ℚ :=
  match connCountScoreF count span with
  | .fin q => q
  | _ => 0

/-- A scored conversation: the columns kept at line 122
(`Score`, `Count`, `username`, `domain`, `Deltas`). -/
structure Scored where
  username : String
  domain : String
  cnt : ℕ
  dels : List ℚ
  score : ℚ
deriving DecidableEq

/-- Lines 90-114 applied to one conversation: deltas, the three sub-scores
and the composite `Score = ((SkewScore + MadmScore + ConnCountScore) / 3.0
* 1000) / 1000`. -/
def scoreConv (c : Conv) : Scored :=
  let ds := deltas c.timestamps
  ⟨c.username, c.domain, count c, ds,
    (skewScore ds + madmScore (madm ds) + connCountScore (count c) (connDiv c.timestamps))
      / 3 * 1000 / 1000⟩

/-- The scored conversations in pre-sort (sorted-key) order. -/
def scoredConvs (rows : List LogRecord) : List Scored :=
  (activityFilter (groupby (sentinelFilter rows))).map scoreConv

def scoreLe (a b : Scored) : Prop := a.score ≤ b.score

instance : DecidableRel scoreLe := fun a b =>
  inferInstanceAs (Decidable (a.score ≤ b.score))

instance : IsTotal Scored scoreLe := ⟨fun a b => le_total a.score b.score⟩

instance : IsTrans Scored scoreLe := ⟨fun _ _ _ h1 h2 => le_trans h1 h2⟩

/-- Line 115: `df.sort_values(by='Score', ascending=False)`.  pandas
`nargsort` computes an ascending argsort and reverses it for a descending
sort; for fewer than 16 rows numpy's default quicksort degenerates to a
stable insertion sort, so the behaviour on the result sets considered here
is the reverse of a stable ascending sort. -/
def rank (l : List Scored) : List Scored :=
  (List.insertionSort scoreLe l).reverse

/-- The whole pipeline: sentinel row filter, grouping, activity filter,
scoring, descending sort. -/
def analyze (rows : List LogRecord) : List Scored :=
  rank (scoredConvs rows)

/-- Line 127: `df.loc[df[score] > 0.7]`, the flagged "possible beacons". -/
def possibleBeacons (rows : List LogRecord) : List Scored :=
  (analyze rows).filter fun s => (7 : ℚ) / 10 < s.score

/-- Placeholder scored conversation, used as the default of `headD`. -/
def dummyScored : Scored := ⟨"", "", 0, [], 0⟩

/-!
Helper lemmas: the computable `Rat.floor` agrees with `⌊·⌋`, and linear
interpolation along a sorted list is monotone in the position.
-/

theorem ratFloor_eq (q : ℚ) : Rat.floor q = ⌊q⌋ :=
  (Rat.floor_def' q).trans Rat.floor_def.symm

theorem floor_toNat_cast (pos : ℚ) (h0 : 0 ≤ pos) :
    (((Rat.floor pos).toNat : ℚ)) = ((⌊pos⌋ : ℤ) : ℚ) := by
  rw [ratFloor_eq]
  exact_mod_cast congrArg (fun z : ℤ => (z : ℚ))
    (Int.toNat_of_nonneg (Int.floor_nonneg.mpr h0))

theorem toNat_floor_le (pos : ℚ) (h0 : 0 ≤ pos) :
    (((Rat.floor pos).toNat : ℚ)) ≤ pos := by
  rw [floor_toNat_cast pos h0]
  exact Int.floor_le pos

theorem lt_toNat_floor_add_one (pos : ℚ) (h0 : 0 ≤ pos) :
    pos < ((Rat.floor pos).toNat : ℚ) + 1 := by
  rw [floor_toNat_cast pos h0]
  exact Int.lt_floor_add_one pos

theorem toNat_floor_lt_length (pos : ℚ) (n : ℕ) (h0 : 0 ≤ pos)
    (h1 : pos ≤ (n : ℚ) - 1) : (Rat.floor pos).toNat < n := by
  have h2 : (((Rat.floor pos).toNat : ℚ)) + 1 ≤ (n : ℚ) := by
    have := toNat_floor_le pos h0
    linarith
  exact_mod_cast h2

theorem toNat_floor_mono (a b : ℚ) (hab : a ≤ b) :
    (Rat.floor a).toNat ≤ (Rat.floor b).toNat := by
  rw [ratFloor_eq, ratFloor_eq]
  exact Int.toNat_le_toNat (Int.floor_mono hab)

theorem sorted_getD_mono (s : List ℚ) (hs : s.Sorted (fun a b => a ≤ b))
    {i j : ℕ} (hij : i ≤ j) (hj : j < s.length) :
    s.getD i 0 ≤ s.getD j 0 := by
  have hi : i < s.length := lt_of_le_of_lt hij hj
  rw [List.getD_eq_getElem _ _ hi, List.getD_eq_getElem _ _ hj]
  rcases Nat.lt_or_ge i j with h | h
  · exact hs.rel_get_of_lt (a := ⟨i, hi⟩) (b := ⟨j, hj⟩) h
  · have : i = j := le_antisymm hij h
    subst this
    exact le_refl _

theorem sortQ_perm (xs : List ℚ) : (sortQ xs).Perm xs :=
  List.perm_insertionSort _ xs

theorem sortQ_sorted (xs : List ℚ) : (sortQ xs).Sorted (fun a b => a ≤ b) :=
  List.sorted_insertionSort _ xs

theorem sortQ_length (xs : List ℚ) : (sortQ xs).length = xs.length :=
  (sortQ_perm xs).length_eq

theorem interp_ge_left (s : List ℚ) (hs : s.Sorted (fun a b => a ≤ b))
    (pos : ℚ) (h0 : 0 ≤ pos) (h1 : pos ≤ (s.length : ℚ) - 1) :
    s.getD (Rat.floor pos).toNat 0 ≤ interp s pos := by
  have hfrac : 0 ≤ pos - ((Rat.floor pos).toNat : ℚ) :=
    sub_nonneg.mpr (toNat_floor_le pos h0)
  unfold interp
  by_cases hlt : (Rat.floor pos).toNat + 1 < s.length
  · have hd : s.getD (Rat.floor pos).toNat 0 ≤ s.getD ((Rat.floor pos).toNat + 1) 0 :=
      sorted_getD_mono s hs (Nat.le_succ _) hlt
    nlinarith [mul_nonneg hfrac (sub_nonneg.mpr hd)]
  · have hin : (Rat.floor pos).toNat < s.length := toNat_floor_lt_length pos s.length h0 h1
    have h2 : (s.length : ℚ) ≤ ((Rat.floor pos).toNat : ℚ) + 1 := by
      exact_mod_cast Nat.le_of_not_lt hlt
    have h3 : pos - ((Rat.floor pos).toNat : ℚ) = 0 := by linarith
    rw [h3, zero_mul, add_zero]

theorem interp_le_right (s : List ℚ) (hs : s.Sorted (fun a b => a ≤ b))
    (pos : ℚ) (h0 : 0 ≤ pos) (hlt : (Rat.floor pos).toNat + 1 < s.length) :
    interp s pos ≤ s.getD ((Rat.floor pos).toNat + 1) 0 := by
  have hfrac : pos - ((Rat.floor pos).toNat : ℚ) < 1 := by
    have := lt_toNat_floor_add_one pos h0
    linarith
  have hfrac0 : 0 ≤ pos - ((Rat.floor pos).toNat : ℚ) :=
    sub_nonneg.mpr (toNat_floor_le pos h0)
  have hd : s.getD (Rat.floor pos).toNat 0 ≤ s.getD ((Rat.floor pos).toNat + 1) 0 :=
    sorted_getD_mono s hs (Nat.le_succ _) hlt
  unfold interp
  nlinarith [mul_nonneg hfrac0 (sub_nonneg.mpr hd)]

theorem interp_mono (s : List ℚ) (hs : s.Sorted (fun a b => a ≤ b))
    (pos pos' : ℚ) (h0 : 0 ≤ pos) (h01 : pos ≤ pos')
    (h1 : pos' ≤ (s.length : ℚ) - 1) :
    interp s pos ≤ interp s pos' := by
  have h0' : 0 ≤ pos' := le_trans h0 h01
  have hple : pos ≤ (s.length : ℚ) - 1 := le_trans h01 h1
  have hii : (Rat.floor pos).toNat ≤ (Rat.floor pos').toNat :=
    toNat_floor_mono pos pos' h01
  rcases Nat.lt_or_ge (Rat.floor pos).toNat (Rat.floor pos').toNat with hlt | hge
  · have hi'n : (Rat.floor pos').toNat < s.length :=
      toNat_floor_lt_length pos' s.length h0' h1
    have hstep : (Rat.floor pos).toNat + 1 < s.length := lt_of_le_of_lt hlt hi'n
    calc interp s pos ≤ s.getD ((Rat.floor pos).toNat + 1) 0 :=
          interp_le_right s hs pos h0 hstep
      _ ≤ s.getD (Rat.floor pos').toNat 0 := sorted_getD_mono s hs hlt hi'n
      _ ≤ interp s pos' := interp_ge_left s hs pos' h0' h1
  · have heq : (Rat.floor pos).toNat = (Rat.floor pos').toNat := le_antisymm hii hge
    unfold interp
    rw [← heq]
    by_cases hlt2 : (Rat.floor pos).toNat + 1 < s.length
    · have hd : s.getD (Rat.floor pos).toNat 0 ≤ s.getD ((Rat.floor pos).toNat + 1) 0 :=
        sorted_getD_mono s hs (Nat.le_succ _) hlt2
      nlinarith [sub_nonneg.mpr hd]
    · have hin : (Rat.floor pos).toNat < s.length :=
        toNat_floor_lt_length pos s.length h0 hple
      have h2 : (s.length : ℚ) ≤ ((Rat.floor pos).toNat : ℚ) + 1 := by
        exact_mod_cast Nat.le_of_not_lt hlt2
      have h3 : pos - ((Rat.floor pos).toNat : ℚ) = 0 := by
        have := toNat_floor_le pos h0
        linarith
      have h4 : pos' - ((Rat.floor pos).toNat : ℚ) = 0 := by
        have h5 : ((Rat.floor pos').toNat : ℚ) ≤ pos' := toNat_floor_le pos' h0'
        rw [heq]
        have h6 : ((Rat.floor pos').toNat : ℚ) = ((Rat.floor pos).toNat : ℚ) := by
          exact_mod_cast heq.symm
        have h7 : (s.length : ℚ) ≤ ((Rat.floor pos').toNat : ℚ) + 1 := by
          rw [h6]; exact h2
        linarith
      rw [h3, h4, zero_mul, add_zero]

/-!
Percentile lemmas: monotonicity in the percentile point and preservation
of nonnegativity, and the resulting facts about skewness and the median
absolute deviation.
-/

theorem percentile_mono (xs : List ℚ) (hne : xs ≠ []) (p p' : ℚ)
    (hp : 0 ≤ p) (hpp : p ≤ p') (hp' : p' ≤ 100) :
    percentile xs p ≤ percentile xs p' := by
  have hn : 1 ≤ (sortQ xs).length := by
    rw [sortQ_length]
    exact List.length_pos.mpr hne
  have hn1 : (0 : ℚ) ≤ ((sortQ xs).length : ℚ) - 1 := by
    have : (1 : ℚ) ≤ ((sortQ xs).length : ℚ) := by exact_mod_cast hn
    linarith
  unfold percentile
  apply interp_mono _ (sortQ_sorted xs)
  · exact mul_nonneg (by linarith) hn1
  · apply mul_le_mul_of_nonneg_right _ hn1
    linarith
  · have h1 : p' / 100 ≤ 1 := by linarith
    nlinarith [mul_nonneg (by linarith : (0 : ℚ) ≤ 1 - p' / 100) hn1]

theorem percentile_nonneg (xs : List ℚ) (hne : xs ≠ [])
    (hall : ∀ x ∈ xs, 0 ≤ x) (p : ℚ) (hp : 0 ≤ p) (hp' : p ≤ 100) :
    0 ≤ percentile xs p := by
  have hn : 1 ≤ (sortQ xs).length := by
    rw [sortQ_length]
    exact List.length_pos.mpr hne
  have hn1 : (0 : ℚ) ≤ ((sortQ xs).length : ℚ) - 1 := by
    have : (1 : ℚ) ≤ ((sortQ xs).length : ℚ) := by exact_mod_cast hn
    linarith
  have hpos0 : 0 ≤ p / 100 * (((sortQ xs).length : ℚ) - 1) :=
    mul_nonneg (by linarith) hn1
  have hpos1 : p / 100 * (((sortQ xs).length : ℚ) - 1) ≤ ((sortQ xs).length : ℚ) - 1 := by
    nlinarith [mul_nonneg (by linarith : (0 : ℚ) ≤ 1 - p / 100) hn1]
  have hi : (Rat.floor (p / 100 * (((sortQ xs).length : ℚ) - 1))).toNat < (sortQ xs).length :=
    toNat_floor_lt_length _ _ hpos0 hpos1
  have hmem : (sortQ xs).getD (Rat.floor (p / 100 * (((sortQ xs).length : ℚ) - 1))).toNat 0 ∈ sortQ xs := by
    rw [List.getD_eq_getElem _ _ hi]
    exact List.getElem_mem _
  have h0 : 0 ≤ (sortQ xs).getD (Rat.floor (p / 100 * (((sortQ xs).length : ℚ) - 1))).toNat 0 :=
    hall _ ((sortQ_perm xs).mem_iff.mp hmem)
  exact le_trans h0 (interp_ge_left _ (sortQ_sorted xs) _ hpos0 hpos1)

theorem lowPct_le_midPct (ds : List ℚ) (hne : ds ≠ []) : lowPct ds ≤ midPct ds :=
  percentile_mono ds hne 20 50 (by norm_num) (by norm_num) (by norm_num)

theorem midPct_le_highPct (ds : List ℚ) (hne : ds ≠ []) : midPct ds ≤ highPct ds :=
  percentile_mono ds hne 50 80 (by norm_num) (by norm_num) (by norm_num)

theorem abs_skew_le_one (ds : List ℚ) (hne : ds ≠ []) : |skew ds| ≤ 1 := by
  unfold skew
  split
  · rename_i hguard
    obtain ⟨hnum, hml, hmh⟩ := hguard
    have h1 : lowPct ds ≤ midPct ds := lowPct_le_midPct ds hne
    have h2 : midPct ds ≤ highPct ds := midPct_le_highPct ds hne
    have hlm : lowPct ds < midPct ds := lt_of_le_of_ne h1 (Ne.symm hml)
    have hmh2 : midPct ds < highPct ds := lt_of_le_of_ne h2 hmh
    have hden : 0 < bowleyDen ds := by
      unfold bowleyDen
      linarith
    have habs : |bowleyNum ds| ≤ bowleyDen ds := by
      unfold bowleyNum bowleyDen
      rw [abs_le]
      constructor <;> linarith
    rw [abs_div, abs_of_pos hden]
    rw [div_le_one hden]
    exact habs
  · simp

theorem skew_eq_spec (ds : List ℚ) (hne : ds ≠ []) :
    skew ds =
      if highPct ds = lowPct ds ∨ midPct ds = lowPct ds ∨ midPct ds = highPct ds then 0
      else bowleyNum ds / bowleyDen ds := by
  have h1 : lowPct ds ≤ midPct ds := lowPct_le_midPct ds hne
  have h2 : midPct ds ≤ highPct ds := midPct_le_highPct ds hne
  by_cases hml : midPct ds = lowPct ds
  · rw [skew, if_neg (by tauto), if_pos (Or.inr (Or.inl hml))]
  · by_cases hmh : midPct ds = highPct ds
    · rw [skew, if_neg (by tauto), if_pos (Or.inr (Or.inr hmh))]
    · have hhl : highPct ds ≠ lowPct ds := by
        intro h
        exact hml (le_antisymm (h ▸ h2) h1)
      rw [if_neg (by tauto)]
      by_cases hnum : bowleyNum ds = 0
      · rw [skew, if_neg (by tauto), hnum, zero_div]
      · rw [skew, if_pos ⟨hnum, hml, hmh⟩]

theorem madm_nonneg (ds : List ℚ) (hne : ds ≠ []) : 0 ≤ madm ds := by
  unfold madm median
  apply percentile_nonneg
  · simpa using hne
  · intro x hx
    obtain ⟨d, _, rfl⟩ := List.mem_map.mp hx
    exact abs_nonneg _
  · norm_num
  · norm_num

theorem skewScore_bounds (ds : List ℚ) (hne : ds ≠ []) :
    0 ≤ skewScore ds ∧ skewScore ds ≤ 1 := by
  have h1 := abs_skew_le_one ds hne
  have h2 := abs_nonneg (skew ds)
  unfold skewScore
  constructor <;> linarith

theorem madmScore_bounds (m : ℚ) (hm : 0 ≤ m) :
    0 ≤ madmScore m ∧ madmScore m ≤ 1 := by
  unfold madmScore
  split
  · exact ⟨le_refl 0, zero_le_one⟩
  · rename_i h
    constructor
    · linarith [not_lt.mp h]
    · have : 0 ≤ m / 30 := by positivity
      linarith

/-!
Lemmas about the rate score `10 * count / span` and its cap at 1.0.
-/

theorem connF_zero (cnt : ℕ) (hc : 1 ≤ cnt) :
    connCountScoreF cnt 0 = PyFloat.fin 1 := by
  have h1 : (1 : ℚ) ≤ (cnt : ℚ) := by exact_mod_cast hc
  have hpos : (0 : ℚ) < 10 * cnt := by linarith
  unfold connCountScoreF pyDiv
  rw [if_pos rfl, if_neg (ne_of_gt hpos), if_pos hpos]
  rfl

theorem connF_nonzero (cnt : ℕ) (span : ℚ) (hs : span ≠ 0) :
    connCountScoreF cnt span =
      PyFloat.fin (if 1 < 10 * cnt / span then 1 else 10 * cnt / span) := by
  unfold connCountScoreF pyDiv
  rw [if_neg hs]
  show (if 1 < 10 * (cnt : ℚ) / span then PyFloat.fin 1 else PyFloat.fin (10 * cnt / span)) = _
  split <;> rfl

theorem connCountScore_zero (cnt : ℕ) (hc : 1 ≤ cnt) :
    connCountScore cnt 0 = 1 := by
  unfold connCountScore
  rw [connF_zero cnt hc]

theorem connCountScore_nonzero (cnt : ℕ) (span : ℚ) (hs : span ≠ 0) :
    connCountScore cnt span = if 1 < 10 * cnt / span then 1 else 10 * cnt / span := by
  unfold connCountScore
  rw [connF_nonzero cnt span hs]

theorem connCountScore_bounds (cnt : ℕ) (span : ℚ) (hspan : 0 < span) :
    0 ≤ connCountScore cnt span ∧ connCountScore cnt span ≤ 1 := by
  rw [connCountScore_nonzero cnt span (ne_of_gt hspan)]
  have hv : 0 ≤ 10 * (cnt : ℚ) / span := by positivity
  split
  · exact ⟨zero_le_one, le_refl 1⟩
  · rename_i h
    exact ⟨hv, le_of_not_lt h⟩

theorem deltas_length (ts : List ℚ) : (deltas ts).length = ts.length - 1 := by
  unfold deltas
  rw [List.length_zipWith, List.length_tail]
  omega

theorem deltas_ne_nil (ts : List ℚ) (h : 2 ≤ ts.length) : deltas ts ≠ [] := by
  have hl : 1 ≤ (deltas ts).length := by
    rw [deltas_length]
    omega
  exact List.ne_nil_of_length_pos hl

/-!
Concrete inputs used by witnesses and counterexamples.
-/

/-- A conversation with 37 observations one second apart. -/
def exConvC1 : Conv := ⟨"u", "d", (List.range 37).map fun i => (i : ℚ)⟩

/-- Claim C1: for every conversation that passes the activity filter
(`count > 36`) and has positive span, the composite score lies in
`[0, 1]`. -/
theorem score_in_unit_interval (c : Conv) (h1 : 36 < count c)
    (h2 : 0 < connDiv c.timestamps) :
    0 ≤ (scoreConv c).score ∧ (scoreConv c).score ≤ 1 := by
  have hlen : 2 ≤ c.timestamps.length := by
    unfold count at h1
    omega
  have hne : deltas c.timestamps ≠ [] := deltas_ne_nil _ hlen
  obtain ⟨ha1, ha2⟩ := skewScore_bounds _ hne
  obtain ⟨hb1, hb2⟩ := madmScore_bounds (madm (deltas c.timestamps)) (madm_nonneg _ hne)
  obtain ⟨hd1, hd2⟩ := connCountScore_bounds (count c) (connDiv c.timestamps) h2
  have hscore : (scoreConv c).score =
      (skewScore (deltas c.timestamps) + madmScore (madm (deltas c.timestamps)) +
        connCountScore (count c) (connDiv c.timestamps)) / 3 * 1000 / 1000 := rfl
  rw [hscore]
  constructor <;> linarith

/-- Witness for `score_in_unit_interval` at a 37-observation conversation. -/
theorem score_in_unit_interval_witness :
    36 < count exConvC1 ∧ 0 < connDiv exConvC1.timestamps ∧
      (0 ≤ (scoreConv exConvC1).score ∧ (scoreConv exConvC1).score ≤ 1) :=
  ⟨of_decide_eq_true (by with_unfolding_all rfl),
   of_decide_eq_true (by with_unfolding_all rfl),
   score_in_unit_interval exConvC1 (of_decide_eq_true (by with_unfolding_all rfl))
     (of_decide_eq_true (by with_unfolding_all rfl))⟩

/-- Claim C3: the skewness equals the Bowley formula guarded exactly by the
degenerate cases `high = low`, `mid = low`, `mid = high` (where it is 0),
it always lies in `[−1, 1]`, and it is exactly 0 when `high = low`. -/
theorem skew_formula_and_bounds (ds : List ℚ) (hne : ds ≠ []) :
    skew ds =
      (if highPct ds = lowPct ds ∨ midPct ds = lowPct ds ∨ midPct ds = highPct ds then 0
        else (lowPct ds + highPct ds - 2 * midPct ds) / (highPct ds - lowPct ds)) ∧
    -1 ≤ skew ds ∧ skew ds ≤ 1 ∧ (highPct ds = lowPct ds → skew ds = 0) := by
  have hspec := skew_eq_spec ds hne
  have habs := abs_skew_le_one ds hne
  rw [abs_le] at habs
  unfold bowleyNum bowleyDen at hspec
  refine ⟨hspec, habs.1, habs.2, fun h => ?_⟩
  rw [hspec, if_pos (Or.inl h)]

/-- Witness for `skew_formula_and_bounds` on the delta series `[1, 2, 3]`. -/
theorem skew_formula_and_bounds_witness :
    (([(1 : ℚ), 2, 3] : List ℚ) ≠ []) ∧
    (skew [(1 : ℚ), 2, 3] =
      (if highPct [(1 : ℚ), 2, 3] = lowPct [(1 : ℚ), 2, 3] ∨
          midPct [(1 : ℚ), 2, 3] = lowPct [(1 : ℚ), 2, 3] ∨
          midPct [(1 : ℚ), 2, 3] = highPct [(1 : ℚ), 2, 3] then 0
        else (lowPct [(1 : ℚ), 2, 3] + highPct [(1 : ℚ), 2, 3] - 2 * midPct [(1 : ℚ), 2, 3]) /
          (highPct [(1 : ℚ), 2, 3] - lowPct [(1 : ℚ), 2, 3])) ∧
    -1 ≤ skew [(1 : ℚ), 2, 3] ∧ skew [(1 : ℚ), 2, 3] ≤ 1 ∧
      (highPct [(1 : ℚ), 2, 3] = lowPct [(1 : ℚ), 2, 3] → skew [(1 : ℚ), 2, 3] = 0)) :=
  ⟨of_decide_eq_true (by with_unfolding_all rfl),
   skew_formula_and_bounds [(1 : ℚ), 2, 3] (of_decide_eq_true (by with_unfolding_all rfl))⟩

/-- Claim C4: for positive span the rate score is `min 1 (10·count/span)`;
in particular it equals 1 whenever the ratio is at least 1, boundary
included. -/
theorem rate_score_is_min (cnt : ℕ) (span : ℚ) (h : 0 < span) :
    connCountScore cnt span = min 1 (10 * cnt / span) ∧
    (1 ≤ 10 * cnt / span → connCountScore cnt span = 1) := by
  rw [connCountScore_nonzero cnt span (ne_of_gt h)]
  constructor
  · rcases lt_or_le 1 (10 * (cnt : ℚ) / span) with hv | hv
    · rw [if_pos hv, min_eq_left hv.le]
    · rw [if_neg (not_lt.mpr hv), min_eq_right hv]
  · intro hge
    rcases eq_or_lt_of_le hge with heq | hlt
    · rw [if_neg (by rw [← heq]; exact lt_irrefl 1)]
      exact heq.symm
    · rw [if_pos hlt]

/-- Witness for `rate_score_is_min` at `count = 1`, `span = 5` (ratio 2). -/
theorem rate_score_is_min_witness :
    (0 : ℚ) < 5 ∧
    (connCountScore 1 5 = min 1 (10 * ((1 : ℕ) : ℚ) / 5) ∧
      (1 ≤ 10 * ((1 : ℕ) : ℚ) / 5 → connCountScore 1 5 = 1)) :=
  ⟨by norm_num, rate_score_is_min 1 5 (by norm_num)⟩

/-- Claim C5: the dispersion score is `max 0 (1 − mad/30)`, it never
increases when `mad` increases, and it is 0 once `mad ≥ 30`. -/
theorem dispersion_score_max_mono (m m' : ℚ) (h : m ≤ m') :
    madmScore m = max 0 (1 - m / 30) ∧ madmScore m' ≤ madmScore m ∧
    (30 ≤ m → madmScore m = 0) := by
  refine ⟨?_, ?_, fun h30 => ?_⟩
  · unfold madmScore
    split
    · rename_i h1
      exact (max_eq_left h1.le).symm
    · rename_i h1
      exact (max_eq_right (not_lt.mp h1)).symm
  · unfold madmScore
    split <;> split <;> linarith [le_refl (0 : ℚ)]
  · unfold madmScore
    split
    · rfl
    · rename_i h1
      linarith [not_lt.mp h1]

/-- Witness for `dispersion_score_max_mono` at `mad = 30` and `mad = 40`. -/
theorem dispersion_score_max_mono_witness :
    (30 : ℚ) ≤ 40 ∧
    (madmScore 30 = max 0 (1 - 30 / 30) ∧ madmScore 40 ≤ madmScore 30 ∧
      ((30 : ℚ) ≤ 30 → madmScore 30 = 0)) :=
  ⟨by norm_num, dispersion_score_max_mono 30 40 (by norm_num)⟩

/-- A conversation whose 37 records all carry the same timestamp, so its
span is zero. -/
def exRowsC2 : List LogRecord :=
  (List.range 37).map fun _ => ⟨100, "u", "9.9.9.9", "zs.example"⟩

/-- Claim C2 counterexample: the zero-span conversation passes the activity
filter, no error is raised, and it appears in the final ranking (with
score 1) instead of being excluded. -/
theorem zero_span_kept_counterexample :
    (groupby (sentinelFilter exRowsC2)).map (fun c => connDiv c.timestamps) = [0] ∧
    (groupby (sentinelFilter exRowsC2)).map count = [37] ∧
    (analyze exRowsC2).map (fun s => s.domain) = ["zs.example"] ∧
    (analyze exRowsC2).map (fun s => s.score) = [1] :=
  of_decide_eq_true (by with_unfolding_all rfl)

/-- Claim C2 as amended: at `span = 0` the rate division produces `+∞`
(no error), the cap maps it to 1.0, and the conversation keeps rate score 1
(so it stays in the ranking, as `zero_span_kept_counterexample` shows). -/
theorem zero_span_rate_capped (cnt : ℕ) (hc : 1 ≤ cnt) :
    pyDiv (10 * cnt) 0 = PyFloat.posInf ∧
    connCountScoreF cnt 0 = PyFloat.fin 1 ∧
    connCountScore cnt 0 = 1 := by
  refine ⟨?_, connF_zero cnt hc, connCountScore_zero cnt hc⟩
  have h1 : (1 : ℚ) ≤ (cnt : ℚ) := by exact_mod_cast hc
  have hpos : (0 : ℚ) < 10 * cnt := by linarith
  unfold pyDiv
  rw [if_pos rfl, if_neg (ne_of_gt hpos), if_pos hpos]

/-- Witness for `zero_span_rate_capped` at `count = 37`. -/
theorem zero_span_rate_capped_witness :
    1 ≤ 37 ∧
    (pyDiv (10 * ((37 : ℕ) : ℚ)) 0 = PyFloat.posInf ∧
      connCountScoreF 37 0 = PyFloat.fin 1 ∧ connCountScore 37 0 = 1) :=
  ⟨by norm_num, zero_span_rate_capped 37 (by norm_num)⟩

/-- A conversation with exactly 36 observations. -/
def conv36 : Conv := ⟨"u", "d", (List.range 36).map fun i => (i : ℚ)⟩

/-- A conversation with exactly 37 observations. -/
def conv37 : Conv := ⟨"u", "d2", (List.range 37).map fun i => (i : ℚ)⟩

/-- Two records only, so the single conversation is below the activity
threshold and the result set empties. -/
def lowActivityRows : List LogRecord :=
  [⟨0, "u", "9.9.9.9", "x.example"⟩, ⟨60, "u", "9.9.9.9", "x.example"⟩]

/-- Claim C6: the activity filter keeps exactly the conversations with
`count > 36` (so `count = 36` is dropped and `count = 37` kept), and an
input whose conversations are all filtered out yields an empty result
without error. -/
theorem activity_filter_strict_boundary :
    (∀ (cs : List Conv) (c : Conv), c ∈ activityFilter cs ↔ c ∈ cs ∧ 36 < count c) ∧
    activityFilter [conv36, conv37] = [conv37] ∧
    analyze lowActivityRows = [] := by
  refine ⟨?_, ?_, ?_⟩
  · intro cs c
    simp [activityFilter, List.mem_filter]
  · exact of_decide_eq_true (by with_unfolding_all rfl)
  · exact of_decide_eq_true (by with_unfolding_all rfl)

theorem deltas_cons (a b : ℚ) (l : List ℚ) :
    deltas (a :: b :: l) = (b - a) :: deltas (b :: l) := rfl

theorem deltas_getD : ∀ (ts : List ℚ) (i : ℕ), i + 1 < ts.length →
    (deltas ts).getD i 0 = ts.getD (i + 1) 0 - ts.getD i 0
  | [], _, h => by simp at h
  | [_], _, h => by simp at h
  | _ :: _ :: _, 0, _ => rfl
  | a :: b :: l, i + 1, h => by
    have ih := deltas_getD (b :: l) i (by simpa using h)
    simpa [deltas_cons] using ih

/-- Claim C7: the delta series has length `count − 1`, its `i`-th element
is `timestamps[i+1] − timestamps[i]` in observed order, and the span is
the last timestamp minus the first as ordered (negative spans are passed
through unchanged). -/
theorem deltas_span_shape (ts : List ℚ) (i : ℕ) (h : ts ≠ [])
    (hi : i + 1 < ts.length) :
    (deltas ts).length = ts.length - 1 ∧
    (deltas ts).getD i 0 = ts.getD (i + 1) 0 - ts.getD i 0 ∧
    connDiv ts = ts.getLast h - ts.head h := by
  refine ⟨deltas_length ts, deltas_getD ts i hi, ?_⟩
  unfold connDiv
  rw [List.getLastD_eq_getLast?, List.getLast?_eq_getLast _ h]
  cases ts with
  | nil => exact absurd rfl h
  | cons a l => simp

/-- Witness for `deltas_span_shape` on the out-of-order series `[5, 1]`,
whose span is the negative value `−4`. -/
theorem deltas_span_shape_witness :
    (([(5 : ℚ), 1] : List ℚ) ≠ [] ∧ 0 + 1 < ([(5 : ℚ), 1] : List ℚ).length) ∧
    ((deltas [(5 : ℚ), 1]).length = ([(5 : ℚ), 1] : List ℚ).length - 1 ∧
      (deltas [(5 : ℚ), 1]).getD 0 0 =
        ([(5 : ℚ), 1] : List ℚ).getD (0 + 1) 0 - ([(5 : ℚ), 1] : List ℚ).getD 0 0 ∧
      connDiv [(5 : ℚ), 1] =
        ([(5 : ℚ), 1] : List ℚ).getLast (by simp) - ([(5 : ℚ), 1] : List ℚ).head (by simp)) :=
  ⟨⟨by simp, by norm_num⟩, deltas_span_shape [(5 : ℚ), 1] 0 (by simp) (by norm_num)⟩

/-- Two conversations, keys `("u", "a")` and `("u", "b")`, with identical
timestamp patterns and therefore identical scores. -/
def exRowsC8 : List LogRecord :=
  ((List.range 37).map fun i => (⟨60 * i, "u", "9.9.9.9", "a"⟩ : LogRecord)) ++
    ((List.range 37).map fun i => (⟨60 * i, "u", "9.9.9.9", "b"⟩ : LogRecord))

/-- Claim C8 counterexample: the two conversations are tied (equal scores)
and stand in insertion/key order `a, b` before the sort, but the
descending sort emits them as `b, a` — the reverse of insertion/key order,
not insertion/key order. -/
theorem ranking_tie_counterexample :
    (scoredConvs exRowsC8).map (fun s => s.domain) = ["a", "b"] ∧
    (scoredConvs exRowsC8).map (fun s => s.score) = [469 / 648, 469 / 648] ∧
    (analyze exRowsC8).map (fun s => s.domain) = ["b", "a"] :=
  of_decide_eq_true (by with_unfolding_all rfl)

/-- Claim C8 as amended: the ranking sorts by score descending (the
reverse of a stable ascending sort, so ties come out in reverse
insertion/key order), drops no conversation, and flags exactly the
conversations with score above 0.7. -/
theorem ranking_sorted_perm_flagged (rows : List LogRecord) :
    (analyze rows).Pairwise (fun a b => b.score ≤ a.score) ∧
    (analyze rows).Perm (scoredConvs rows) ∧
    ∀ s : Scored, s ∈ possibleBeacons rows ↔ s ∈ analyze rows ∧ (7 : ℚ) / 10 < s.score := by
  refine ⟨?_, ?_, ?_⟩
  · unfold analyze rank
    exact List.pairwise_reverse.mpr (List.sorted_insertionSort scoreLe _)
  · unfold analyze rank
    exact (List.reverse_perm _).trans (List.perm_insertionSort _ _)
  · intro s
    simp [possibleBeacons, List.mem_filter]

/-- Rows whose `username` and `dest_ip` pass the sentinel filter while the
`domain` — the column actually used as the conversation destination key —
is the sentinel `"-"`. -/
def exRowsC9 : List LogRecord :=
  (List.range 37).map fun i => ⟨60 * i, "u", "1.2.3.4", "-"⟩

/-- Claim C9 counterexample: none of these rows is removed by the sentinel
filter (it checks `dest_ip`, not `domain`), and a conversation whose
destination is the sentinel `"-"` reaches the final ranking. -/
theorem sentinel_domain_counterexample :
    sentinelFilter exRowsC9 = exRowsC9 ∧
    (analyze exRowsC9).map (fun s => s.domain) = ["-"] :=
  of_decide_eq_true (by with_unfolding_all rfl)

/-- Claim C9 as amended: every conversation in the final ranking has a
source (username) different from the sentinel; the destination key
(`domain`) is not checked, and `sentinel_domain_counterexample` shows it
can equal the sentinel. -/
theorem scored_username_not_sentinel (rows : List LogRecord) (s : Scored)
    (h : s ∈ analyze rows) : s.username ≠ "-" := by
  unfold analyze rank at h
  rw [List.mem_reverse] at h
  have h2 : s ∈ scoredConvs rows := (List.perm_insertionSort scoreLe _).mem_iff.mp h
  unfold scoredConvs at h2
  obtain ⟨c, hc, rfl⟩ := List.mem_map.mp h2
  show (scoreConv c).username ≠ "-"
  have husr : (scoreConv c).username = c.username := rfl
  rw [husr]
  unfold activityFilter at hc
  have hc2 : c ∈ groupby (sentinelFilter rows) := (List.mem_filter.mp hc).1
  unfold groupby at hc2
  obtain ⟨k, hk, rfl⟩ := List.mem_map.mp hc2
  show k.1 ≠ "-"
  unfold groupKeys at hk
  have hk2 : k ∈ (List.map (fun r => (r.username, r.domain)) (sentinelFilter rows)).dedup :=
    (List.perm_insertionSort keyLe _).mem_iff.mp hk
  rw [List.mem_dedup] at hk2
  obtain ⟨r, hr, rfl⟩ := List.mem_map.mp hk2
  show r.username ≠ "-"
  unfold sentinelFilter at hr
  have hpred := (List.mem_filter.mp hr).2
  simp only [Bool.and_eq_true, bne_iff_ne] at hpred
  exact hpred.1

/-- Witness for `scored_username_not_sentinel` at the head of the ranking
of `exRowsC9`. -/
theorem scored_username_not_sentinel_witness :
    (analyze exRowsC9).headD dummyScored ∈ analyze exRowsC9 ∧
    ((analyze exRowsC9).headD dummyScored).username ≠ "-" :=
  ⟨of_decide_eq_true (by with_unfolding_all rfl),
   scored_username_not_sentinel exRowsC9 _ (of_decide_eq_true (by with_unfolding_all rfl))⟩

/-- A conversation observed in reverse chronological order: 37 timestamps
one second apart, descending, so its span is `−36`. -/
def exRowsC10 : List LogRecord :=
  (List.range 37).map fun i => ⟨3600 - i, "u", "9.9.9.9", "neg.example"⟩

/-- Claim C10: for negative span the rate score is the (negative) raw
ratio — the cap only acts from above — so the composite score can drop
below 0, and such a conversation still appears in the final ranking (the
concrete run scores `−149/54`). -/
theorem negative_span_rate_uncapped (cnt : ℕ) (span : ℚ) (hc : 1 ≤ cnt)
    (hs : span < 0) :
    connCountScore cnt span = 10 * cnt / span ∧
    connCountScore cnt span < 0 ∧
    (analyze exRowsC10).map (fun s => s.score) = [-149 / 54] := by
  have h1 : (1 : ℚ) ≤ (cnt : ℚ) := by exact_mod_cast hc
  have hneg : 10 * (cnt : ℚ) / span < 0 := div_neg_of_pos_of_neg (by linarith) hs
  refine ⟨?_, ?_, of_decide_eq_true (by with_unfolding_all rfl)⟩
  · rw [connCountScore_nonzero cnt span (ne_of_lt hs), if_neg (by linarith)]
  · rw [connCountScore_nonzero cnt span (ne_of_lt hs), if_neg (by linarith)]
    exact hneg

/-- Witness for `negative_span_rate_uncapped` at `count = 37`,
`span = −36`. -/
theorem negative_span_rate_uncapped_witness :
    (1 ≤ 37 ∧ (-36 : ℚ) < 0) ∧
    (connCountScore 37 (-36) = 10 * ((37 : ℕ) : ℚ) / (-36) ∧
      connCountScore 37 (-36) < 0 ∧
      (analyze exRowsC10).map (fun s => s.score) = [-149 / 54]) :=
  ⟨⟨by norm_num, by norm_num⟩,
   negative_span_rate_uncapped 37 (-36) (by norm_num) (by norm_num)⟩

end BeaconFinder
